import Mathlib

/-!
# GitStory — verification of the client-side core

A shallow embedding, in Lean 4, of the stateful/logic parts of the GitStory
repository (a Next.js conversational front-end for GitHub repositories):

* the GitHub URL parser `parseGitHubUrl` of `src/contexts/repo-context.tsx`,
  embedded together with a small backtracking matcher reproducing the
  JavaScript regular-expression semantics of the three patterns it uses;
* the repository/auth state store operations (`setRepo`, `parseAndSetRepo`,
  `validateAndSetAuth`) of the same file;
* the component-name inference and labeling of
  `src/components/tambo/canvas-panel.tsx` (`getComponentDisplayName`,
  `componentsHistory`), over a small model of JavaScript values and React
  elements;
* the remote-tool (MCP) descriptor derivation of `useGitHubMcp`;
* the OAuth callback handler (`/api/auth/github/callback`) and the session
  status handler (`/api/auth/status`), with the external HTTP exchanges
  modelled as explicit oracle inputs.

JavaScript-specific behaviour (truthiness, `||` defaulting, `String.trim`,
`String.includes`, lazy/greedy regex quantifiers, capture groups) is modelled
explicitly.  Strings are treated as their character lists; `toLowerCase` is
modelled on the ASCII range (every name the code compares against is ASCII).
-/

/-! ## A model of JavaScript values and React elements -/

/-- The `type` of a React element as inspected by the canvas panel:
a function component (with optional `displayName` and a `name`, which for a
JavaScript function is always a string, possibly empty), a host tag string,
a `forwardRef`/`memo`-style object (optional `displayName`, optional `render`
function with its optional `displayName` and its `name`), or anything else
(e.g. a symbol), for which every lookup yields the empty string. -/
inductive ElemType where
  | fnType (displayName : Option String) (name : String)
  | strType (tag : String)
  | objType (displayName : Option String) (render : Option (Option String × String))
  | otherType

mutual
/-- A JavaScript value, as far as the inspected code discriminates them. -/
inductive JSVal where
  | undefined
  | null
  | bool (b : Bool)
  | num (n : Int)
  | str (s : String)
  | arr (elems : List JSVal)
  | obj (fields : List (String × JSVal))
  | elem (e : RElement)

/-- A React element: its `type` and its props object. -/
inductive RElement where
  | mk (etype : ElemType) (props : List (String × JSVal))
end

def RElement.etype : RElement → ElemType
  | .mk t _ => t

def RElement.props : RElement → List (String × JSVal)
  | .mk _ p => p

/-- JavaScript truthiness for the modelled values. -/
def jsTruthy : JSVal → Bool
  | .undefined => false
  | .null => false
  | .bool b => b
  | .num n => n != 0
  | .str s => s != ""
  | .arr _ => true
  | .obj _ => true
  | .elem _ => true

/-- Property access `o.key` on a props/fields list (first binding wins);
a missing key reads as `undefined`. -/
def getField (fields : List (String × JSVal)) (key : String) : JSVal :=
  match fields.find? (fun kv => kv.1 == key) with
  | some kv => kv.2
  | none => .undefined

/-- The `typeof v === "object"` (true also for `null`, arrays and elements). -/
def isObjectType : JSVal → Bool
  | .null => true
  | .arr _ => true
  | .obj _ => true
  | .elem _ => true
  | _ => false

def isNull : JSVal → Bool
  | .null => true
  | _ => false

/-- The `typeof v === "string"`. -/
def isStringVal : JSVal → Bool
  | .str _ => true
  | _ => false

/-- The `"key" in v`: own-property test on a plain object; the code only applies
it behind a `typeof === "object" && !== null` guard, and for the array and
element values that can reach it the named data keys (`sha`, `riskScore`)
are never own properties, so those cases read as `false`. -/
def jsIn (key : String) : JSVal → Bool
  | .obj fields => fields.any (fun kv => kv.1 == key)
  | _ => false

/-- JavaScript `a || b` for a string-or-undefined `a` falling back to a
string `b`: the empty string is falsy. -/
def jsOrStr (a : Option String) (b : String) : String :=
  match a with
  | some s => if s = "" then b else s
  | none => b

/-- Truthiness of a `string | null | undefined` variable. -/
def truthyStr (a : Option String) : Bool :=
  match a with
  | some s => s != ""
  | none => false

/-- ASCII `toLowerCase` (all names compared by the code are ASCII). -/
def jsToLower (s : String) : String :=
  String.mk (s.data.map Char.toLower)

/-- Is `sub` a prefix of `l`? -/
def listIsPrefixOf : List Char → List Char → Bool
  | [], _ => true
  | _ :: _, [] => false
  | a :: as, b :: bs => a == b && listIsPrefixOf as bs

/-- Does `sub` occur contiguously inside `l`? -/
def listHasInfix (sub : List Char) : List Char → Bool
  | [] => sub.isEmpty
  | c :: rest => listIsPrefixOf sub (c :: rest) || listHasInfix sub rest

/-- The `s.includes(sub)`: substring test. -/
def jsIncludes (s sub : String) : Bool :=
  listHasInfix sub.data s.data

/-- The WhiteSpace/LineTerminator set trimmed by JavaScript `String.trim`,
by code point: space, tab, LF, CR, VT, FF, NBSP, Ogham space mark, the
`U+2000`–`U+200A` spaces, LS, PS, NNBSP, MMSP, ideographic space and BOM. -/
def isJsWhitespace (c : Char) : Bool :=
  c.toNat == 32 || c.toNat == 9 || c.toNat == 10 || c.toNat == 13 ||
  c.toNat == 11 || c.toNat == 12 ||
  c.toNat == 0xA0 || c.toNat == 0x1680 ||
  (0x2000 ≤ c.toNat && c.toNat ≤ 0x200A) ||
  c.toNat == 0x2028 || c.toNat == 0x2029 ||
  c.toNat == 0x202F || c.toNat == 0x205F ||
  c.toNat == 0x3000 || c.toNat == 0xFEFF

/-- JavaScript `String.trim`: drop leading and trailing whitespace. -/
def jsTrim (s : String) : String :=
  String.mk (((s.data.dropWhile isJsWhitespace).reverse.dropWhile isJsWhitespace).reverse)

/-! ## A backtracking regex matcher

The three patterns in `parseGitHubUrl` use only literals, character classes,
greedy/lazy repetition of character classes, optional groups, alternation
inside `https?`, and capture groups, all anchored at both ends.  `Re` models
exactly these constructs; `mmatch` reproduces the JavaScript backtracking
order (alternatives left to right, greedy repetition longest first, lazy
repetition shortest first), threading a capture list in
continuation-passing style, with captures of failed branches discarded. -/

/-- Regex syntax: repetition is restricted to character classes, which is all
the source patterns use (`[^/]+`, `[^/]+?`, `.*`). -/
inductive Re where
  | eps
  | lit (c : Char)
  | cls (p : Char → Bool)
  | seq (a b : Re)
  | alt (a b : Re)
  | group (idx : Nat) (r : Re)
  | starG (p : Char → Bool)
  | starL (p : Char → Bool)

/-- Captures: group index paired with the consumed characters; the most
recent capture of a group is first. -/
def Caps := List (Nat × List Char)

/-- Length of the longest prefix all of whose characters satisfy `p` —
the most a class repetition can consume. -/
def maxMunch (p : Char → Bool) : List Char → Nat
  | [] => 0
  | c :: rest => if p c then maxMunch p rest + 1 else 0

/-- Greedy repetition: try consuming `n` characters, then `n-1`, … then `0`. -/
def starGreedyAux (s : List Char) (caps : Caps) (k : List Char → Caps → Option Caps) :
    Nat → Option Caps
  | 0 => k s caps
  | n + 1 =>
    match k (s.drop (n + 1)) caps with
    | some r => some r
    | none => starGreedyAux s caps k n

/-- Lazy repetition: try consuming `i` characters, then `i+1`, … while fuel
remains. -/
def starLazyAux (s : List Char) (caps : Caps) (k : List Char → Caps → Option Caps) :
    Nat → Nat → Option Caps
  | 0, i => k (s.drop i) caps
  | fuel + 1, i =>
    match k (s.drop i) caps with
    | some r => some r
    | none => starLazyAux s caps k fuel (i + 1)

/-- The backtracking matcher, in continuation-passing style.  `k` receives
the unconsumed input and the captures accumulated so far. -/
def mmatch : Re → List Char → Caps → (List Char → Caps → Option Caps) → Option Caps
  | .eps, s, caps, k => k s caps
  | .lit c, s, caps, k =>
    match s with
    | [] => none
    | x :: rest => if x = c then k rest caps else none
  | .cls p, s, caps, k =>
    match s with
    | [] => none
    | x :: rest => if p x then k rest caps else none
  | .seq a b, s, caps, k => mmatch a s caps (fun s' caps' => mmatch b s' caps' k)
  | .alt a b, s, caps, k =>
    match mmatch a s caps k with
    | some r => some r
    | none => mmatch b s caps k
  | .group n r, s, caps, k =>
    mmatch r s caps (fun s' caps' => k s' ((n, s.take (s.length - s'.length)) :: caps'))
  | .starG p, s, caps, k => starGreedyAux s caps k (maxMunch p s)
  | .starL p, s, caps, k => starLazyAux s caps k (maxMunch p s) 0

/-- Anchored (`^…$`) match of a whole string, returning the captures. -/
def runRe (r : Re) (s : String) : Option Caps :=
  mmatch r s.data [] (fun rest caps => if rest = [] then some caps else none)

/-- The `regexMatch[n]`: the last successful capture of group `n`, if any. -/
def getCap (caps : Caps) (n : Nat) : Option String :=
  match caps.find? (fun c => c.1 == n) with
  | some c => some (String.mk c.2)
  | none => none

/-- A literal string, character by character. -/
def strLit (w : String) : Re :=
  w.data.foldr (fun c acc => Re.seq (Re.lit c) acc) Re.eps

/-- Greedy `[p]+` = one mandatory character then greedy repetition. -/
def plusG (p : Char → Bool) : Re := Re.seq (Re.cls p) (Re.starG p)

/-- Lazy `[p]+?` = one mandatory character then lazy repetition. -/
def plusL (p : Char → Bool) : Re := Re.seq (Re.cls p) (Re.starL p)

/-- Greedy `r?`. -/
def optG (r : Re) : Re := Re.alt r Re.eps

/-- The class `[^/]`. -/
def notSlash (c : Char) : Bool := c != '/'

/-- The JavaScript `.` class: any character except a line terminator. -/
def dotCls (c : Char) : Bool :=
  c != '\n' && c != '\r' && c != Char.ofNat 0x2028 && c != Char.ofNat 0x2029

/-- The class `[a-zA-Z0-9_-]` (owner characters of the shorthand form). -/
def ghOwnerChar (c : Char) : Bool :=
  (('a' ≤ c && c ≤ 'z') || ('A' ≤ c && c ≤ 'Z') || ('0' ≤ c && c ≤ '9')) ||
  c == '_' || c == '-'

/-- The class `[a-zA-Z0-9_.-]` (repo characters of the shorthand form). -/
def ghRepoChar (c : Char) : Bool :=
  ghOwnerChar c || c == '.'

/-- The `/^git@github\.com:([^\/]+)\/([^\/]+?)(\.git)?$/` -/
def sshRe : Re :=
  Re.seq (strLit "git@github.com:")
    (Re.seq (Re.group 1 (plusG notSlash))
      (Re.seq (Re.lit '/')
        (Re.seq (Re.group 2 (plusL notSlash))
          (optG (Re.group 3 (strLit ".git"))))))

/-- The `/^(?:https?:\/\/)?github\.com\/([^\/]+)\/([^\/]+?)(?:\.git)?(?:\/tree\/([^\/]+))?(?:\/.*)?$/` -/
def httpsRe : Re :=
  Re.seq (optG (Re.seq (strLit "http") (Re.seq (optG (Re.lit 's')) (strLit "://"))))
    (Re.seq (strLit "github.com/")
      (Re.seq (Re.group 1 (plusG notSlash))
        (Re.seq (Re.lit '/')
          (Re.seq (Re.group 2 (plusL notSlash))
            (Re.seq (optG (strLit ".git"))
              (Re.seq (optG (Re.seq (strLit "/tree/") (Re.group 3 (plusG notSlash))))
                (optG (Re.seq (Re.lit '/') (Re.starG dotCls)))))))))

/-- The `/^([a-zA-Z0-9_-]+)\/([a-zA-Z0-9_.-]+)$/` -/
def shorthandRe : Re :=
  Re.seq (Re.group 1 (plusG ghOwnerChar))
    (Re.seq (Re.lit '/') (Re.group 2 (plusG ghRepoChar)))

/-! ## The URL parser (`parseGitHubUrl`, repo-context.tsx lines 40–66) -/

/-- The `ParsedRepo` result: `branch` is absent for the SSH and shorthand
forms and for an HTTPS form without `/tree/<branch>`. -/
structure ParsedRepo where
  owner : String
  repo : String
  branch : Option String := none
deriving DecidableEq, Repr

/-- The `{ owner: sshMatch[1], repo: sshMatch[2] }` -/
def sshResult (caps : Caps) : ParsedRepo :=
  { owner := (getCap caps 1).getD "", repo := (getCap caps 2).getD "" }

/-- The `{ owner: httpsMatch[1], repo: httpsMatch[2], branch: httpsMatch[3] }` -/
def httpsResult (caps : Caps) : ParsedRepo :=
  { owner := (getCap caps 1).getD "", repo := (getCap caps 2).getD "",
    branch := getCap caps 3 }

/-- The `{ owner: shorthandMatch[1], repo: shorthandMatch[2] }` -/
def shorthandResult (caps : Caps) : ParsedRepo :=
  { owner := (getCap caps 1).getD "", repo := (getCap caps 2).getD "" }

/-- The three regex attempts on the trimmed input, first match wins. -/
def parseGitHubUrlCore (trimmed : String) : Option ParsedRepo :=
  match runRe sshRe trimmed with
  | some caps => some (sshResult caps)
  | none =>
    match runRe httpsRe trimmed with
    | some caps => some (httpsResult caps)
    | none =>
      match runRe shorthandRe trimmed with
      | some caps => some (shorthandResult caps)
      | none => none

/-- The `parseGitHubUrl` on a string input: the `!input` guard rejects the empty
string, then the input is trimmed and the three forms are tried in order. -/
def parseGitHubUrl (input : String) : Option ParsedRepo :=
  if input = "" then none
  else parseGitHubUrlCore (jsTrim input)

/-- The `parseGitHubUrl` on an arbitrary JavaScript value:
`if (!input || typeof input !== "string") return null`. -/
def parseGitHubUrlJS (input : JSVal) : Option ParsedRepo :=
  if !jsTruthy input || !isStringVal input then none
  else
    match input with
    | .str s => parseGitHubUrl s
    | _ => none

/-! ## The repository/auth state store (repo-context.tsx) -/

/-- The GitHub user profile kept in auth state: `{ login, avatar_url, name }`
(`name` can be `null` on GitHub). -/
structure GitHubUser where
  login : String
  avatar_url : String
  name : Option String
deriving DecidableEq, Repr

/-- The `GitHubAuthState` of repo-context.tsx. -/
structure GitHubAuthState where
  accessToken : Option String
  isAuthenticated : Bool
  user : Option GitHubUser
deriving DecidableEq, Repr

/-- The repository-selection part of the provider state. -/
structure RepoState where
  owner : Option String
  repo : Option String
  branch : String
deriving DecidableEq, Repr

/-- The `setRepoAction(newOwner, newRepo, newBranch?)`: overwrite owner and repo;
`if (newBranch) setBranch(newBranch)` leaves the branch unchanged when the
new branch is absent (or empty, which is falsy). -/
def setRepoAction (newOwner newRepo : String) (newBranch : Option String)
    (st : RepoState) : RepoState :=
  { owner := some newOwner, repo := some newRepo,
    branch :=
      match newBranch with
      | some b => if b = "" then st.branch else b
      | none => st.branch }

/-- The `parseAndSetRepo(url)`: run the parser; on success apply `setRepoAction`
with the parsed fields; return the parsed result (or null). -/
def parseAndSetRepo (url : String) (st : RepoState) : Option ParsedRepo × RepoState :=
  match parseGitHubUrl url with
  | some parsed =>
    (some parsed, setRepoAction parsed.owner parsed.repo parsed.branch st)
  | none => (none, st)

/-- The outcome of the `fetch("https://api.github.com/user")` round-trip in
`validateAndSetAuth`, modelled as an explicit oracle: the fetch can reject
with a network `Error` (whose message is recorded), the response can have a
non-success status (`!response.ok`), `response.json()` can throw, or the
call succeeds with a user profile. -/
inductive UserFetchOutcome where
  | netError (message : String)
  | badStatus
  | jsonError (message : String)
  | ok (user : GitHubUser)
deriving DecidableEq, Repr

/-- The auth-related slice of the provider state, together with the persisted
`gitstory-auth` local-storage entry (`none` = key absent). -/
structure AuthStoreState where
  auth : GitHubAuthState
  isConnecting : Bool
  connectionError : Option String
  storedAuth : Option String
deriving DecidableEq, Repr

/-- The `validateAndSetAuth(token)` (repo-context.tsx lines 130–167): on success
store token and user, persist the token, mark authenticated; on any failure
record the thrown error message, reset auth to unauthenticated and remove
the persisted key.  `isConnecting` is reset in the `finally` block. -/
def validateAndSetAuth (outcome : UserFetchOutcome) (token : String)
    (_st : AuthStoreState) : AuthStoreState :=
  match outcome with
  | .ok user =>
    { auth := { accessToken := some token, isAuthenticated := true, user := some user },
      isConnecting := false,
      connectionError := none,
      storedAuth := some token }
  | .badStatus =>
    { auth := { accessToken := none, isAuthenticated := false, user := none },
      isConnecting := false,
      connectionError := some "Invalid or expired token",
      storedAuth := none }
  | .netError message =>
    { auth := { accessToken := none, isAuthenticated := false, user := none },
      isConnecting := false,
      connectionError := some message,
      storedAuth := none }
  | .jsonError message =>
    { auth := { accessToken := none, isAuthenticated := false, user := none },
      isConnecting := false,
      connectionError := some message,
      storedAuth := none }

/-! ## The remote-tool (MCP) configurator (`useGitHubMcp`) -/

/-- The `MCPTransport` of the orchestration SDK, as far as this code uses it. -/
inductive MCPTransport where
  | HTTP
  | SSE
deriving DecidableEq, Repr

/-- The descriptor pushed onto `mcpServers`: URL, transport, name and the
`Authorization` custom header. -/
structure McpServerInfo where
  url : String
  transport : MCPTransport
  name : String
  authorization : String
deriving DecidableEq, Repr

/-- The `GitHubMcpConfig` state of `useGitHubMcp` (each field `string | null`). -/
structure GitHubMcpConfig where
  owner : Option String
  repo : Option String
  accessToken : Option String
deriving DecidableEq, Repr

/-- The derivation at the bottom of `useGitHubMcp`:
`if (config.accessToken && config.owner && config.repo)` push exactly one
GitHub descriptor, else return the empty list. -/
def mcpServersOf (config : GitHubMcpConfig) : List McpServerInfo :=
  if truthyStr config.accessToken && truthyStr config.owner && truthyStr config.repo then
    [{ url := "https://api.githubcopilot.com/mcp/",
       transport := MCPTransport.HTTP,
       name := "github",
       authorization := "Bearer " ++ (config.accessToken.getD "") }]
  else []

/-! ## Component-name inference (canvas-panel.tsx lines 28–137) -/

/-- The `COMPONENT_DISPLAY_NAMES`, in object-literal insertion order (the order
`Object.entries` iterates). -/
def COMPONENT_DISPLAY_NAMES : List (String × String) :=
  [("PRSummary", "PR Summary"),
   ("CommitTimeline", "Commit Timeline"),
   ("RiskHeatmap", "Risk Heatmap"),
   ("FileViewer", "File Viewer"),
   ("RepoSummary", "Repository Overview"),
   ("ContributorNetwork", "Contributor Network"),
   ("DiffViewer", "Diff Viewer")]

/-- Strategy 1 type-name recovery on the own `type` of the element:
function components use `displayName || name || ""`, host tags their string,
`forwardRef`/`memo` objects `displayName || render?.displayName || render?.name || ""`. -/
def typeNameOfElemType : ElemType → String
  | .fnType displayName name => jsOrStr displayName name
  | .strType tag => tag
  | .objType displayName render =>
    jsOrStr displayName
      (match render with
       | some (renderDisplayName, renderName) => jsOrStr renderDisplayName renderName
       | none => "")
  | .otherType => ""

/-- The same recovery applied to the sole child: the child branch of the
source has no `typeof === "string"` case, so a host-tag child yields `""`. -/
def childTypeNameOfElemType : ElemType → String
  | .fnType displayName name => jsOrStr displayName name
  | .strType _ => ""
  | .objType displayName render =>
    jsOrStr displayName
      (match render with
       | some (renderDisplayName, renderName) => jsOrStr renderDisplayName renderName
       | none => "")
  | .otherType => ""

/-- The `for (const [key, value] of Object.entries(COMPONENT_DISPLAY_NAMES))`
loop: return the value of the first key contained (case-insensitively) in
the type name. -/
def lookupDisplayName (typeName : String) : Option String :=
  match COMPONENT_DISPLAY_NAMES.find?
      (fun kv => jsIncludes (jsToLower typeName) (jsToLower kv.1)) with
  | some kv => some kv.2
  | none => none

/-- Strategy 2: `props?.children && React.isValidElement(props.children)`,
then the same known-name lookup on the type of the child. -/
def childDisplayName (props : List (String × JSVal)) : Option String :=
  let children := getField props "children"
  if jsTruthy children then
    match children with
    | .elem child => lookupDisplayName (childTypeNameOfElemType child.etype)
    | _ => none
  else none

/-- The `componentProps.data` is a non-empty array whose first entry is a
non-null object with a `sha` key. -/
def dataHasSha (props : List (String × JSVal)) : Bool :=
  let d := getField props "data"
  jsTruthy d &&
    (match d with
     | .arr (x :: _) => isObjectType x && !isNull x && jsIn "sha" x
     | _ => false)

/-- The `componentProps.fullName` is a truthy string and `structure` or `topics`
is truthy. -/
def repoShape (props : List (String × JSVal)) : Bool :=
  let fullName := getField props "fullName"
  jsTruthy fullName && isStringVal fullName &&
    (jsTruthy (getField props "structure") || jsTruthy (getField props "topics"))

/-- The `componentProps.prNumber || componentProps.prUrl`. -/
def prShape (props : List (String × JSVal)) : Bool :=
  jsTruthy (getField props "prNumber") || jsTruthy (getField props "prUrl")

/-- The `componentProps.files` is a non-empty array whose first entry is a
non-null object with a `riskScore` key. -/
def filesHaveRiskScore (props : List (String × JSVal)) : Bool :=
  let files := getField props "files"
  jsTruthy files &&
    (match files with
     | .arr (x :: _) => isObjectType x && !isNull x && jsIn "riskScore" x
     | _ => false)

/-- The `componentProps.contributors && componentProps.collaborations`. -/
def contributorShape (props : List (String × JSVal)) : Bool :=
  jsTruthy (getField props "contributors") && jsTruthy (getField props "collaborations")

/-- Strategy 3: the five shape checks, in source order. -/
def propsShapeName (props : List (String × JSVal)) : Option String :=
  if dataHasSha props then some "Commit Timeline"
  else if repoShape props then some "Repository Overview"
  else if prShape props then some "PR Summary"
  else if filesHaveRiskScore props then some "Risk Heatmap"
  else if contributorShape props then some "Contributor Network"
  else none

/-- Strategy 4: keyword matching on the lower-cased recovered type name,
in source order. -/
def keywordName (typeName : String) : Option String :=
  let lower := jsToLower typeName
  if jsIncludes lower "pr" || jsIncludes lower "pull" then some "PR Summary"
  else if jsIncludes lower "commit" && jsIncludes lower "timeline" then some "Commit Timeline"
  else if jsIncludes lower "risk" || jsIncludes lower "heatmap" then some "Risk Heatmap"
  else if jsIncludes lower "diff" then some "Diff Viewer"
  else if jsIncludes lower "repo" || jsIncludes lower "summary" then some "Repository Overview"
  else if jsIncludes lower "contributor" || jsIncludes lower "network" then some "Contributor Network"
  else if jsIncludes lower "file" then some "File Viewer"
  else none

/-- The `getComponentDisplayName(component)`: non-elements give `"Component"`;
otherwise the four strategies run in order and the final fallback is
`return typeName || "Component"`. -/
def getComponentDisplayName (component : JSVal) : String :=
  match component with
  | .elem e =>
    let typeName := typeNameOfElemType e.etype
    match lookupDisplayName typeName with
    | some v => v
    | none =>
      match childDisplayName e.props with
      | some v => v
      | none =>
        match propsShapeName e.props with
        | some v => v
        | none =>
          match keywordName typeName with
          | some v => v
          | none => if typeName = "" then "Component" else typeName
  | _ => "Component"

/-! ## The component registry (`componentsHistory`, canvas-panel.tsx 140–179) -/

/-- A thread message, as far as `componentsHistory` inspects it.
`renderedComponent` is `JSVal.undefined` when the message carries no rendered
component. -/
structure ThreadMessage where
  id : String
  role : String
  renderedComponent : JSVal
  isCancelled : Bool

/-- One entry of the first pass: message id, component, inferred base name. -/
structure ComponentEntry where
  messageId : String
  component : JSVal
  baseName : String

/-- One entry of the exposed history: the deduplicated display label. -/
structure LabeledComponent where
  messageId : String
  component : JSVal
  label : String
  componentName : String

/-- First pass: keep assistant-authored, non-cancelled messages carrying a
rendered component, and attach to each one its inferred base name. -/
def filteredComponents (messages : List ThreadMessage) : List ComponentEntry :=
  (messages.filter
      (fun m => m.role == "assistant" && jsTruthy m.renderedComponent && !m.isCancelled)).map
    (fun m =>
      { messageId := m.id, component := m.renderedComponent,
        baseName := getComponentDisplayName m.renderedComponent })

/-- An own-property value of the bare `{}` counter objects
(`typeCounts`, `typeInstanceCounts`): either one of the numbers the loops
write, or the non-numeric string produced when `(obj[k] || 0) + 1` found an
inherited `Object.prototype` member — `+ 1` then concatenates the source
text of that member with `"1"`, giving a non-empty (truthy) string that
coerces to `NaN`.  Its exact text is engine-dependent and never inspected,
so it is not carried. -/
inductive CounterVal where
  | num (n : Nat)
  | nanStr
deriving DecidableEq, Repr

/-- The own-property names of `Object.prototype`.  On a bare `{}` without
an own property under such a name, an indexed read returns the inherited
member — a function or, for `__proto__`, the prototype object itself —
which is truthy and coerces to `NaN`. -/
def objectProtoKey (s : String) : Bool :=
  s == "constructor" || s == "hasOwnProperty" || s == "isPrototypeOf" ||
  s == "propertyIsEnumerable" || s == "toLocaleString" || s == "toString" ||
  s == "valueOf" || s == "__defineGetter__" || s == "__defineSetter__" ||
  s == "__lookupGetter__" || s == "__lookupSetter__" || s == "__proto__"

/-- The result of the indexed read `obj[k]` on a counter object: an own
numeric property, an own corrupted string, an inherited `Object.prototype`
member, or `undefined`. -/
inductive CounterRead where
  | num (n : Nat)
  | nanStr
  | protoMember
  | undefinedRead
deriving DecidableEq, Repr

/-- The indexed read `obj[k]`: the own property if present, otherwise the
prototype chain. -/
def counterRead (st : String → Option CounterVal) (k : String) : CounterRead :=
  match st k with
  | some (CounterVal.num n) => CounterRead.num n
  | some CounterVal.nanStr => CounterRead.nanStr
  | none => if objectProtoKey k then CounterRead.protoMember else CounterRead.undefinedRead

/-- The update `obj[k] = (obj[k] || 0) + 1`.  An own number `n` becomes
`n + 1` (`0`, being falsy, goes through `|| 0` unchanged); `undefined`
becomes `1`; `+ 1` on an own corrupted string or on an inherited
function/object concatenates into a corrupted string.  Assigning that
non-object value through the inherited `__proto__` setter is a no-op, so
under the key `"__proto__"` no own property ever appears. -/
def counterIncr (st : String → Option CounterVal) (k : String) :
    String → Option CounterVal :=
  if (st k).isNone && k == "__proto__" then st
  else
    fun s =>
      if s = k then
        some (match counterRead st k with
          | CounterRead.num n => CounterVal.num (n + 1)
          | CounterRead.undefinedRead => CounterVal.num 1
          | CounterRead.nanStr => CounterVal.nanStr
          | CounterRead.protoMember => CounterVal.nanStr)
      else st s

/-- The `components.forEach` loop filling `typeCounts` on a bare `{}`:
`typeCounts[c.baseName] = (typeCounts[c.baseName] || 0) + 1`. -/
def buildCounts : List String → (String → Option CounterVal) → (String → Option CounterVal)
  | [], st => st
  | b :: rest, st => buildCounts rest (counterIncr st b)

/-- The comparison `totalOfType > 1` is numeric, hence false for
`undefined`, for a corrupted string and for an inherited function/object
(all coerce to `NaN`). -/
def readGtOne : CounterRead → Bool
  | CounterRead.num n => decide (1 < n)
  | _ => false

/-- Template-literal rendering of `instanceNumber`.  The corrupted-string
text is engine-dependent, but it is never rendered: a non-numeric instance
count only arises for an `Object.prototype` name, and then the equally
corrupted total count already fails the `> 1` test (see the labeling
theorem below). -/
def readText : CounterRead → String
  | CounterRead.num n => toString n
  | CounterRead.nanStr => "[corrupted count]"
  | CounterRead.protoMember => "[object Object]"
  | CounterRead.undefinedRead => "undefined"

/-- The second pass, on a bare `{}` instance counter:
`typeInstanceCounts[k] = (typeInstanceCounts[k] || 0) + 1`, read back as
`instanceNumber`, then `totalOfType > 1 ? base + " #" + instanceNumber :
base`. -/
def numberComponents (typeCounts : String → Option CounterVal) :
    List ComponentEntry → (String → Option CounterVal) → List LabeledComponent
  | [], _ => []
  | c :: rest, instanceCounts =>
    let instanceCounts2 := counterIncr instanceCounts c.baseName
    let instanceNumber := counterRead instanceCounts2 c.baseName
    let totalOfType := counterRead typeCounts c.baseName
    let displayName :=
      if readGtOne totalOfType then
        c.baseName ++ " #" ++ readText instanceNumber
      else c.baseName
    { messageId := c.messageId, component := c.component,
      label := displayName, componentName := displayName } ::
      numberComponents typeCounts rest instanceCounts2

/-- The `componentsHistory`: both passes over the messages of the thread,
each counter object starting as a bare `{}`. -/
def componentsHistory (messages : List ThreadMessage) : List LabeledComponent :=
  let components := filteredComponents messages
  let typeCounts := buildCounts (components.map (fun c => c.baseName)) (fun _ => none)
  numberComponents typeCounts components (fun _ => none)

/-! ## The OAuth callback handler (`GET /api/auth/github/callback`) -/

/-- The JSON body returned by the token-exchange POST, as far as the handler
reads it: `error`, `error_description` and `access_token` may each be
absent. -/
structure TokenData where
  error : Option String
  error_description : Option String
  access_token : Option String
deriving DecidableEq, Repr

/-- Outcome of the server-to-server exchange POST (`fetch` plus `json()`):
either some thrown error (network failure or a JSON parse failure, both
caught by the surrounding `try`) or a parsed body. -/
inductive ExchangeOutcome where
  | netError
  | ok (tokenData : TokenData)
deriving DecidableEq, Repr

/-- Outcome of the follow-up `GET https://api.github.com/user`:
a thrown error (caught by the `try`), a non-success status
(`!userResponse.ok`), or a parsed profile. -/
inductive UserInfoOutcome where
  | netError
  | badStatus
  | ok (user : GitHubUser)
deriving DecidableEq, Repr

/-- One callback request together with the environment and the oracle
outcomes of the two outgoing HTTP calls it may make.  Query parameters and
cookies are `none` when absent. -/
structure CallbackRequest where
  code : Option String
  state : Option String
  error : Option String
  error_description : Option String
  originHeader : Option String
  nextUrlOrigin : String
  cookieState : Option String
  clientId : Option String
  clientSecret : Option String
  exchange : ExchangeOutcome
  userInfo : UserInfoOutcome
deriving DecidableEq, Repr

/-- Where the handler redirects: `/chat?error=<message>` or
`/chat?auth=success`, under the computed origin. -/
inductive CallbackRedirect where
  | errorRedirect (origin : String) (message : String)
  | successRedirect (origin : String)
deriving DecidableEq, Repr

/-- The observable response: redirect target, whether the
`github_oauth_state` cookie was deleted, the two cookies possibly set, and
whether the authorization-code exchange POST was issued at all. -/
structure CallbackResponse where
  location : CallbackRedirect
  stateCookieDeleted : Bool
  tokenCookie : Option String
  userCookie : Option GitHubUser
  exchangeAttempted : Bool
deriving DecidableEq, Repr

/-- An error redirect carrying `message`; no cookie is deleted or set. -/
def errorResponse (origin message : String) (exchangeAttempted : Bool) : CallbackResponse :=
  { location := .errorRedirect origin message,
    stateCookieDeleted := false,
    tokenCookie := none,
    userCookie := none,
    exchangeAttempted := exchangeAttempted }

/-- The callback handler (`src/unnamed/part_005`), step by step:
provider error → error redirect; missing code → error redirect; absent or
mismatching state cookie → error redirect; missing client credentials →
error redirect; then the exchange POST runs — a thrown error, an `error`
field in the body, or a failing user fetch each produce an error redirect —
and only the success response deletes the state cookie and sets the
30-day token cookie and the readable user cookie. -/
def callbackGET (req : CallbackRequest) : CallbackResponse :=
  let origin := jsOrStr req.originHeader req.nextUrlOrigin
  if truthyStr req.error then
    errorResponse origin (jsOrStr req.error_description "Authorization failed") false
  else if !truthyStr req.code then
    errorResponse origin "No authorization code received" false
  else
    match req.cookieState with
    | none => errorResponse origin "Invalid state parameter" false
    | some storedState =>
      if storedState = "" || req.state ≠ some storedState then
        errorResponse origin "Invalid state parameter" false
      else if !truthyStr req.clientId || !truthyStr req.clientSecret then
        errorResponse origin "OAuth not configured" false
      else
        match req.exchange with
        | .netError => errorResponse origin "Authentication failed" true
        | .ok tokenData =>
          if truthyStr tokenData.error then
            errorResponse origin
              (jsOrStr tokenData.error_description (tokenData.error.getD "")) true
          else
            match req.userInfo with
            | .netError => errorResponse origin "Authentication failed" true
            | .badStatus => errorResponse origin "Failed to fetch user info" true
            | .ok user =>
              { location := .successRedirect origin,
                stateCookieDeleted := true,
                tokenCookie := some (tokenData.access_token.getD "undefined"),
                userCookie := some user,
                exchangeAttempted := true }

/-! ## The session status handler (`GET /api/auth/status`) -/

/-- The two cookies the status handler reads (`none` = cookie absent). -/
structure StatusRequest where
  accessTokenCookie : Option String
  userCookie : Option String

/-- The JSON body of the status response.  `user` is a JavaScript value
(`null`, or whatever `JSON.parse` produced); `accessToken` is the raw token
or `null`. -/
structure StatusResponse where
  authenticated : Bool
  user : JSVal
  accessToken : Option String

/-- The `let user = null; if (userCookie) { try { user = JSON.parse(...) }
catch {} }` block of the status handler: `jsonParse` models the runtime
function `JSON.parse` (`none` = it throws); the `catch {}` leaves the `null` user. -/
def statusUserVal (jsonParse : String → Option JSVal) : Option String → JSVal
  | none => JSVal.null
  | some userCookie =>
    if userCookie = "" then JSVal.null
    else
      match jsonParse userCookie with
      | some v => v
      | none => JSVal.null

/-- The status handler (`src/app/api/auth/status/route.ts` lines 4–30). -/
def statusGET (jsonParse : String → Option JSVal) (req : StatusRequest) : StatusResponse :=
  match req.accessTokenCookie with
  | none => { authenticated := false, user := .null, accessToken := none }
  | some accessToken =>
    if accessToken = "" then
      { authenticated := false, user := .null, accessToken := none }
    else
      { authenticated := true, user := statusUserVal jsonParse req.userCookie,
        accessToken := some accessToken }

/-! ## Demonstration inputs used by witnesses -/

/-- A provider auth state holding a stale token, used to demonstrate that a
failed validation clears it. -/
def demoAuthStoreState : AuthStoreState :=
  { auth := { accessToken := some "gho_stale", isAuthenticated := true,
              user := some { login := "octocat", avatar_url := "https://a.example/u.png",
                             name := some "The Octocat" } },
    isConnecting := false,
    connectionError := none,
    storedAuth := some "gho_stale" }

/-- A fresh repository-selection state. -/
def demoRepoState : RepoState :=
  { owner := none, repo := none, branch := "main" }

/-- A callback request in which the provider reported an error. -/
def demoProviderErrorRequest : CallbackRequest :=
  { code := some "abc123", state := some "xyz", error := some "access_denied",
    error_description := some "The user denied access",
    originHeader := none, nextUrlOrigin := "http://localhost:3000",
    cookieState := some "xyz", clientId := some "cid", clientSecret := some "csec",
    exchange := ExchangeOutcome.ok
      { error := none, error_description := none, access_token := some "gho_tok" },
    userInfo := UserInfoOutcome.ok
      { login := "octocat", avatar_url := "https://a.example/u.png", name := none } }

/-- A callback request that runs the whole flow successfully. -/
def demoSuccessRequest : CallbackRequest :=
  { code := some "abc123", state := some "xyz", error := none,
    error_description := none,
    originHeader := none, nextUrlOrigin := "http://localhost:3000",
    cookieState := some "xyz", clientId := some "cid", clientSecret := some "csec",
    exchange := ExchangeOutcome.ok
      { error := none, error_description := none, access_token := some "gho_tok" },
    userInfo := UserInfoOutcome.ok
      { login := "octocat", avatar_url := "https://a.example/u.png", name := none } }

/-- A callback request whose `state` parameter does not match the cookie. -/
def demoMismatchRequest : CallbackRequest :=
  { code := some "abc123", state := some "forged", error := none,
    error_description := none,
    originHeader := none, nextUrlOrigin := "http://localhost:3000",
    cookieState := some "xyz", clientId := some "cid", clientSecret := some "csec",
    exchange := ExchangeOutcome.ok
      { error := none, error_description := none, access_token := some "gho_tok" },
    userInfo := UserInfoOutcome.ok
      { login := "octocat", avatar_url := "https://a.example/u.png", name := none } }

/-! ## C3 — the remote-tool configurator -/

/-- Claim C3: `useGitHubMcp` produces exactly one descriptor — the GitHub
tool-server URL, HTTP transport, name `"github"`, and an
`Authorization: Bearer <token>` header — if and only if an access token, an
owner, and a repo are all present in its state (a `string | null` field is
present when it holds a non-empty string; the loaders normalise the empty
string to `null`); in every other state the list is empty. -/
theorem useGitHubMcp_descriptor (config : GitHubMcpConfig) :
    (∀ token, config.accessToken = some token → token ≠ "" →
      truthyStr config.owner = true → truthyStr config.repo = true →
      mcpServersOf config =
        [{ url := "https://api.githubcopilot.com/mcp/",
           transport := MCPTransport.HTTP,
           name := "github",
           authorization := "Bearer " ++ token }]) ∧
    (mcpServersOf config = [] ↔
      ¬(truthyStr config.accessToken = true ∧ truthyStr config.owner = true ∧
        truthyStr config.repo = true)) := by
  constructor
  · intro token htok hne hown hrepo
    have h1 : truthyStr config.accessToken = true := by
      rw [htok]; simp [truthyStr, hne]
    unfold mcpServersOf
    rw [h1, hown, hrepo, htok]
    simp
  · have hiff : (truthyStr config.accessToken && truthyStr config.owner &&
        truthyStr config.repo) = true ↔
        (truthyStr config.accessToken = true ∧ truthyStr config.owner = true ∧
         truthyStr config.repo = true) := by
      simp [Bool.and_eq_true, and_assoc]
    unfold mcpServersOf
    by_cases h : (truthyStr config.accessToken && truthyStr config.owner &&
        truthyStr config.repo) = true
    · rw [if_pos h]
      rw [hiff] at h
      simp [h.1, h.2.1, h.2.2]
    · rw [if_neg h]
      rw [hiff] at h
      simp [h]

/-- Witness for C3 at a fully populated state. -/
theorem useGitHubMcp_descriptor_witness :
    mcpServersOf { owner := some "octocat", repo := some "Hello-World",
                   accessToken := some "gho_tok" } =
      [{ url := "https://api.githubcopilot.com/mcp/",
         transport := MCPTransport.HTTP,
         name := "github",
         authorization := "Bearer " ++ "gho_tok" }] :=
  (useGitHubMcp_descriptor _).1 "gho_tok" rfl (by decide) (by decide) (by decide)

/-! ## C4 — state mismatch in the OAuth callback -/

/-- Claim C4: whenever the `state` query parameter does not exactly equal the
value stored in the anti-forgery cookie, or the cookie is absent, the
callback responds with an error redirect, never issues the code-exchange
POST, and sets neither the session-token cookie nor the user cookie. -/
theorem callback_state_mismatch (req : CallbackRequest)
    (h : req.cookieState = none ∨ req.state ≠ req.cookieState) :
    (∃ origin message,
      (callbackGET req).location = CallbackRedirect.errorRedirect origin message) ∧
    (callbackGET req).exchangeAttempted = false ∧
    (callbackGET req).tokenCookie = none ∧
    (callbackGET req).userCookie = none := by
  unfold callbackGET
  split
  · exact ⟨⟨_, _, rfl⟩, rfl, rfl, rfl⟩
  · split
    · exact ⟨⟨_, _, rfl⟩, rfl, rfl, rfl⟩
    · split
      · exact ⟨⟨_, _, rfl⟩, rfl, rfl, rfl⟩
      · rename_i storedState heq
        split
        · exact ⟨⟨_, _, rfl⟩, rfl, rfl, rfl⟩
        · rename_i hcond
          have hcond' : ¬(storedState = "" ∨ req.state ≠ some storedState) := by
            simpa using hcond
          push_neg at hcond'
          rcases h with h | h
          · rw [heq] at h; exact absurd h (by simp)
          · rw [heq] at h; exact absurd hcond'.2 h

/-- Witness for C4 at a concrete forged-state request. -/
theorem callback_state_mismatch_witness :
    (callbackGET demoMismatchRequest).exchangeAttempted = false ∧
    (callbackGET demoMismatchRequest).tokenCookie = none :=
  ⟨(callback_state_mismatch demoMismatchRequest (Or.inr (by decide))).2.1,
   (callback_state_mismatch demoMismatchRequest (Or.inr (by decide))).2.2.1⟩

/-! ## C5 — deletion of the anti-forgery state cookie -/

/-- Counterexample to claim C5: on a provider-error outcome the callback
response does **not** delete the `github_oauth_state` cookie — only the
success path executes `response.cookies.delete("github_oauth_state")`. -/
theorem callback_state_cookie_kept_on_error :
    (callbackGET demoProviderErrorRequest).stateCookieDeleted = false := by decide

/-- Amended claim C5: the callback response deletes the anti-forgery state
cookie exactly on the success outcome (code exchanged and profile fetched);
every error outcome leaves the cookie in place (it only lapses through its
10-minute max-age). -/
theorem callback_state_cookie_deleted_iff_success (req : CallbackRequest) :
    (callbackGET req).stateCookieDeleted = true ↔
      (∃ origin, (callbackGET req).location = CallbackRedirect.successRedirect origin) := by
  unfold callbackGET errorResponse
  repeat' split
  all_goals simp

/-- Witness for the amended C5 on a fully successful request. -/
theorem callback_state_cookie_deleted_witness :
    (callbackGET demoSuccessRequest).stateCookieDeleted = true :=
  (callback_state_cookie_deleted_iff_success demoSuccessRequest).2
    ⟨"http://localhost:3000", by decide⟩

/-! ## C6 — failed token validation clears auth state -/

/-- Claim C6: whenever the validation round-trip fails (network error,
non-success status, or a JSON failure), the resulting auth state is fully
cleared (`accessToken = null`, `isAuthenticated = false`, `user = null`),
an error message is recorded, and the persisted `gitstory-auth` key is
removed. -/
theorem validateAndSetAuth_failure (outcome : UserFetchOutcome) (token : String)
    (st : AuthStoreState) (h : ∀ user, outcome ≠ UserFetchOutcome.ok user) :
    (validateAndSetAuth outcome token st).auth.accessToken = none ∧
    (validateAndSetAuth outcome token st).auth.isAuthenticated = false ∧
    (validateAndSetAuth outcome token st).auth.user = none ∧
    (validateAndSetAuth outcome token st).connectionError ≠ none ∧
    (validateAndSetAuth outcome token st).storedAuth = none := by
  cases outcome with
  | ok user => exact absurd rfl (h user)
  | badStatus => exact ⟨rfl, rfl, rfl, by simp [validateAndSetAuth], rfl⟩
  | netError message => exact ⟨rfl, rfl, rfl, by simp [validateAndSetAuth], rfl⟩
  | jsonError message => exact ⟨rfl, rfl, rfl, by simp [validateAndSetAuth], rfl⟩

/-- Witness for C6: a rejected token (`401` from the identity provider)
starting from a state that still holds a stale persisted token. -/
theorem validateAndSetAuth_failure_witness :
    (validateAndSetAuth UserFetchOutcome.badStatus "gho_bad" demoAuthStoreState).auth.isAuthenticated
        = false ∧
    (validateAndSetAuth UserFetchOutcome.badStatus "gho_bad" demoAuthStoreState).storedAuth
        = none :=
  ⟨(validateAndSetAuth_failure UserFetchOutcome.badStatus "gho_bad" demoAuthStoreState
      (fun _ h => UserFetchOutcome.noConfusion h)).2.1,
   (validateAndSetAuth_failure UserFetchOutcome.badStatus "gho_bad" demoAuthStoreState
      (fun _ h => UserFetchOutcome.noConfusion h)).2.2.2.2⟩

/-! ## C8 — parseAndSetRepo -/

/-- Claim C8: when the parser fails, `parseAndSetRepo` returns `null` and
leaves the selection unchanged; when it succeeds, it applies `setRepo` with
the parsed fields and returns the parsed result. -/
theorem parseAndSetRepo_spec (url : String) (st : RepoState) :
    (parseGitHubUrl url = none → parseAndSetRepo url st = (none, st)) ∧
    (∀ parsed, parseGitHubUrl url = some parsed →
      parseAndSetRepo url st =
        (some parsed, setRepoAction parsed.owner parsed.repo parsed.branch st)) := by
  constructor
  · intro h; unfold parseAndSetRepo; rw [h]
  · intro parsed h; unfold parseAndSetRepo; rw [h]

/-- Witness for C8: a successful parse overwrites owner and repo and keeps
the default branch; the parsed result is returned. -/
theorem parseAndSetRepo_spec_witness :
    parseAndSetRepo "octocat/Hello-World" demoRepoState =
      (some { owner := "octocat", repo := "Hello-World" },
       { owner := some "octocat", repo := some "Hello-World", branch := "main" }) :=
  ((parseAndSetRepo_spec "octocat/Hello-World" demoRepoState).2
      { owner := "octocat", repo := "Hello-World" } (by decide)).trans (by decide)

/-! ## C9 — the status endpoint -/

/-- Counterexample to claim C9: with the `github_access_token` cookie present
but holding the empty string, the handler answers `authenticated = false`
(the `!accessToken` guard is a truthiness test, not a presence test). -/
theorem status_empty_token_cookie :
    (statusGET (fun _ => none)
        { accessTokenCookie := some "", userCookie := some "x" }).authenticated = false ∧
    (statusGET (fun _ => none)
        { accessTokenCookie := some "", userCookie := some "x" }).accessToken = none :=
  ⟨rfl, rfl⟩

/-- Amended claim C9: `GET /api/auth/status` reports `authenticated = true`
exactly when the access-token cookie is present **with a non-empty value**,
independently of the user cookie; in that case the raw token is echoed, and
an absent, empty or unparseable user cookie degrades to `user = null`;
an absent or empty token cookie yields
`{authenticated: false, user: null, accessToken: null}`. -/
theorem status_authenticated_iff (jsonParse : String → Option JSVal) (req : StatusRequest) :
    ((statusGET jsonParse req).authenticated = true ↔
      ∃ token, req.accessTokenCookie = some token ∧ token ≠ "") ∧
    ((statusGET jsonParse req).authenticated = true →
      (statusGET jsonParse req).accessToken = req.accessTokenCookie) ∧
    (∀ token, req.accessTokenCookie = some token → token ≠ "" →
      (req.userCookie = none ∨
        ∃ u, req.userCookie = some u ∧ (u = "" ∨ jsonParse u = none)) →
      (statusGET jsonParse req).user = JSVal.null) ∧
    ((∀ token, req.accessTokenCookie = some token → token = "") →
      (statusGET jsonParse req).authenticated = false ∧
      (statusGET jsonParse req).user = JSVal.null ∧
      (statusGET jsonParse req).accessToken = none) := by
  cases hc : req.accessTokenCookie with
  | none =>
    have hres : statusGET jsonParse req =
        { authenticated := false, user := JSVal.null, accessToken := none } := by
      unfold statusGET; rw [hc]
    refine ⟨?_, ?_, ?_, ?_⟩
    · rw [hres]; simp
    · rw [hres]; simp
    · intro token htok; exact absurd htok (by simp)
    · intro _; rw [hres]; exact ⟨rfl, rfl, rfl⟩
  | some token =>
    by_cases hne : token = ""
    · subst hne
      have hres : statusGET jsonParse req =
          { authenticated := false, user := JSVal.null, accessToken := none } := by
        unfold statusGET; rw [hc]; simp
      refine ⟨?_, ?_, ?_, ?_⟩
      · rw [hres]; simp
      · rw [hres]; simp
      · intro t ht hne'
        exact absurd (Option.some_inj.mp ht).symm hne'
      · intro _; rw [hres]; exact ⟨rfl, rfl, rfl⟩
    · have hres : statusGET jsonParse req =
          { authenticated := true, user := statusUserVal jsonParse req.userCookie,
            accessToken := some token } := by
        unfold statusGET; rw [hc]; simp [hne]
      refine ⟨?_, ?_, ?_, ?_⟩
      · rw [hres]
        exact ⟨fun _ => ⟨token, rfl, hne⟩, fun _ => rfl⟩
      · intro _; rw [hres]
      · intro t ht hne' hu
        rw [hres]
        rcases hu with hu | ⟨u, hu, hbad⟩
        · rw [hu]; rfl
        · rcases hbad with hbad | hbad
          · simp [hu, statusUserVal, hbad]
          · by_cases hu0 : u = ""
            · simp [hu, statusUserVal, hu0]
            · simp [hu, statusUserVal, hu0, hbad]
      · intro hall
        exact absurd (hall token rfl) hne

/-- Witness for the amended C9: a non-empty token cookie with an unparseable
user cookie yields an authenticated response with a `null` user. -/
theorem status_authenticated_iff_witness :
    (statusGET (fun _ => none)
        { accessTokenCookie := some "gho_tok", userCookie := some "not json" }).user
      = JSVal.null :=
  (status_authenticated_iff (fun _ => none)
      { accessTokenCookie := some "gho_tok", userCookie := some "not json" }).2.2.1
    "gho_tok" rfl (by decide) (Or.inr ⟨"not json", rfl, Or.inr rfl⟩)

/-! ## C2 — component registry labeling -/

/-- Keys other than the written one are untouched by the counter update. -/
theorem counterIncr_other (st : String → Option CounterVal) (b k : String)
    (hbk : k ≠ b) : counterIncr st b k = st k := by
  unfold counterIncr
  by_cases hp : ((st b).isNone && b == "__proto__") = true
  · rw [if_pos hp]
  · rw [if_neg hp]
    exact if_neg hbk

/-- The numeric view of an own counter property: an absent property reads as
`undefined` and `|| 0` turns it into `0`; a corrupted string has no numeric
view. -/
def jsNumRead : Option CounterVal → Option Nat
  | none => some 0
  | some (CounterVal.num n) => some n
  | some CounterVal.nanStr => none

/-- Incrementing a key that does not collide with `Object.prototype` and
currently has the numeric view `m` stores the own number `m + 1`. -/
theorem counterIncr_self_clean (st : String → Option CounterVal) (k : String)
    (m : Nat) (hk : objectProtoKey k = false) (hst : jsNumRead (st k) = some m) :
    counterIncr st k k = some (CounterVal.num (m + 1)) := by
  have hkp : (k == "__proto__") = false := by
    rw [beq_eq_false_iff_ne]
    intro he
    rw [he] at hk
    simp [objectProtoKey] at hk
  cases hsk : st k with
  | none =>
    rw [hsk] at hst
    simp only [jsNumRead, Option.some.injEq] at hst
    rw [← hst]
    simp [counterIncr, counterRead, hsk, hkp, hk]
  | some v =>
    cases v with
    | num n =>
      rw [hsk] at hst
      simp only [jsNumRead, Option.some.injEq] at hst
      rw [← hst]
      simp [counterIncr, counterRead, hsk, hkp]
    | nanStr =>
      rw [hsk] at hst
      simp [jsNumRead] at hst

/-- Incrementing a key that collides with `Object.prototype` never creates an
own numeric property: the `__proto__` write is dropped by the inherited
setter, and every other colliding write stores a corrupted string. -/
theorem counterIncr_self_proto (st : String → Option CounterVal) (k : String)
    (hk : objectProtoKey k = true)
    (hst : st k = none ∨ st k = some CounterVal.nanStr) :
    counterIncr st k k = none ∨ counterIncr st k k = some CounterVal.nanStr := by
  rcases hst with hsk | hsk
  · by_cases he : k = "__proto__"
    · left
      rw [he] at hsk ⊢
      simp [counterIncr, hsk]
    · right
      simp [counterIncr, counterRead, hsk, hk, he]
  · right
    simp [counterIncr, counterRead, hsk]

/-- On a name that does not collide with `Object.prototype` the first pass
counts occurrences: the numeric view grows by the number of occurrences. -/
theorem buildCounts_clean (l : List String) (st : String → Option CounterVal)
    (k : String) (hk : objectProtoKey k = false) (m : Nat)
    (hst : jsNumRead (st k) = some m) :
    jsNumRead (buildCounts l st k) = some (m + l.count k) := by
  induction l generalizing st m with
  | nil => simpa [buildCounts] using hst
  | cons b rest ih =>
    show jsNumRead (buildCounts rest (counterIncr st b) k) =
      some (m + (b :: rest).count k)
    by_cases hbk : k = b
    · rw [← hbk]
      have h1 := counterIncr_self_clean st k m hk hst
      have h2 := ih (counterIncr st k) (m + 1) (by rw [h1]; rfl)
      rw [h2]
      congr 1
      simp [List.count_cons]
      omega
    · have h2 := ih (counterIncr st b) m
        (by rw [counterIncr_other st b k hbk]; exact hst)
      rw [h2]
      congr 1
      have hbeq : (k == b) = false := by simp [hbk]
      simp [List.count_cons, hbeq]
      exact fun hx => hbk hx.symm

/-- On a name that collides with `Object.prototype` the first pass never
creates an own numeric property. -/
theorem buildCounts_proto (l : List String) (st : String → Option CounterVal)
    (k : String) (hk : objectProtoKey k = true)
    (hst : st k = none ∨ st k = some CounterVal.nanStr) :
    buildCounts l st k = none ∨ buildCounts l st k = some CounterVal.nanStr := by
  induction l generalizing st with
  | nil => exact hst
  | cons b rest ih =>
    show buildCounts rest (counterIncr st b) k = none ∨
      buildCounts rest (counterIncr st b) k = some CounterVal.nanStr
    by_cases hbk : k = b
    · rw [← hbk]
      exact ih (counterIncr st k) (counterIncr_self_proto st k hk hst)
    · refine ih (counterIncr st b) ?_
      rw [counterIncr_other st b k hbk]
      exact hst

/-- The numbering pass preserves the list length. -/
theorem numberComponents_length (tc : String → Option CounterVal)
    (cs : List ComponentEntry) (acc : String → Option CounterVal) :
    (numberComponents tc cs acc).length = cs.length := by
  induction cs generalizing acc with
  | nil => rfl
  | cons c rest ih => simp [numberComponents, ih]

/-- The label position `i` of the numbering pass receives, relative to the
total table `tc` and a numeric view `accN` of the instance counts accumulated
before this list. -/
def expectedLabel (tc : String → Option CounterVal) (accN : String → Nat)
    (bases : List String) (i : Nat) : String :=
  if readGtOne (counterRead tc (bases.getD i "")) then
    bases.getD i "" ++ " #" ++
      toString (accN (bases.getD i "") + (bases.take i).count (bases.getD i "") + 1)
  else bases.getD i ""

/-- A read at a key whose own property is a number. -/
theorem counterRead_of_eq (st : String → Option CounterVal) (k : String) (n : Nat)
    (h : st k = some (CounterVal.num n)) : counterRead st k = CounterRead.num n := by
  unfold counterRead
  rw [h]

/-- Each output entry of the numbering pass carries the message id of its
input and the predicted label, provided the instance counter is numerically
clean on non-colliding names, absent-or-corrupt on colliding ones, and the
total table never passes the `> 1` test on a colliding name. -/
theorem numberComponents_get (tc : String → Option CounterVal)
    (cs : List ComponentEntry) (acc : String → Option CounterVal)
    (accN : String → Nat)
    (haccN : ∀ k, objectProtoKey k = false → jsNumRead (acc k) = some (accN k))
    (haccP : ∀ k, objectProtoKey k = true →
      acc k = none ∨ acc k = some CounterVal.nanStr)
    (htc : ∀ k, objectProtoKey k = true → readGtOne (counterRead tc k) = false)
    (i : Nat) (h : i < cs.length) (h' : i < (numberComponents tc cs acc).length) :
    ((numberComponents tc cs acc).get ⟨i, h'⟩).label =
      expectedLabel tc accN (cs.map (fun c => c.baseName)) i ∧
    ((numberComponents tc cs acc).get ⟨i, h'⟩).messageId = (cs.get ⟨i, h⟩).messageId := by
  induction cs generalizing acc accN i with
  | nil => exact absurd h (by simp)
  | cons c rest ih =>
    cases i with
    | zero =>
      refine ⟨?_, rfl⟩
      show (if readGtOne (counterRead tc c.baseName) then
          c.baseName ++ " #" ++
            readText (counterRead (counterIncr acc c.baseName) c.baseName)
        else c.baseName) =
        expectedLabel tc accN (c.baseName :: rest.map (fun c => c.baseName)) 0
      unfold expectedLabel
      simp only [List.getD_cons_zero, List.take_zero, List.count_nil]
      by_cases hgt : readGtOne (counterRead tc c.baseName) = true
      · rw [if_pos hgt, if_pos hgt]
        have hknp : objectProtoKey c.baseName = false := by
          by_contra hcp
          rw [Bool.not_eq_false] at hcp
          rw [htc c.baseName hcp] at hgt
          exact Bool.false_ne_true hgt
        have h1 := counterIncr_self_clean acc c.baseName (accN c.baseName) hknp
          (haccN c.baseName hknp)
        rw [counterRead_of_eq _ _ _ h1]
        simp [readText]
      · rw [if_neg hgt, if_neg hgt]
    | succ n =>
      have hn : n < rest.length := Nat.lt_of_succ_lt_succ h
      have hn' : n < (numberComponents tc rest (counterIncr acc c.baseName)).length := by
        rw [numberComponents_length]; exact hn
      have haccN2 : ∀ k, objectProtoKey k = false →
          jsNumRead (counterIncr acc c.baseName k) = some
            ((fun s => if s = c.baseName then accN c.baseName + 1 else accN s) k) := by
        intro k hkf
        by_cases hbk : k = c.baseName
        · rw [hbk] at hkf ⊢
          rw [counterIncr_self_clean acc c.baseName (accN c.baseName) hkf
            (haccN c.baseName hkf)]
          simp [jsNumRead]
        · rw [counterIncr_other acc c.baseName k hbk]
          simp only [if_neg hbk]
          exact haccN k hkf
      have haccP2 : ∀ k, objectProtoKey k = true →
          counterIncr acc c.baseName k = none ∨
          counterIncr acc c.baseName k = some CounterVal.nanStr := by
        intro k hkp
        by_cases hbk : k = c.baseName
        · rw [hbk] at hkp ⊢
          exact counterIncr_self_proto acc c.baseName hkp (haccP c.baseName hkp)
        · rw [counterIncr_other acc c.baseName k hbk]
          exact haccP k hkp
      have hih := ih (counterIncr acc c.baseName)
        (fun s => if s = c.baseName then accN c.baseName + 1 else accN s)
        haccN2 haccP2 n hn hn'
      refine ⟨?_, hih.2⟩
      show ((numberComponents tc rest (counterIncr acc c.baseName)).get ⟨n, hn'⟩).label =
        expectedLabel tc accN (c.baseName :: rest.map (fun c => c.baseName)) (n + 1)
      rw [hih.1]
      unfold expectedLabel
      have hbase : (c.baseName :: rest.map (fun c => c.baseName)).getD (n + 1) "" =
          (rest.map (fun c => c.baseName)).getD n "" := by
        simp [List.getD]
      rw [hbase]
      generalize (rest.map (fun c => c.baseName)).getD n "" = g
      by_cases hgt : readGtOne (counterRead tc g) = true
      · rw [if_pos hgt, if_pos hgt]
        congr 1
        congr 1
        by_cases hb : g = c.baseName
        · subst hb
          simp only [List.take_succ_cons, List.count_cons]
          simp
          omega
        · simp only [List.take_succ_cons, List.count_cons]
          have hbeq : (g == c.baseName) = false := by simp [hb]
          simp [hb, hbeq]
          exact fun hx => hb hx.symm
      · rw [if_neg hgt, if_neg hgt]

/-- The label the amended claim ascribes to the `i`-th filtered component: on
a base name that collides with an own property name of `Object.prototype` the
bare `{}` counters read inherited members and corrupt to non-numeric
strings, `totalOfType > 1` is false on `NaN`, and the bare base name is kept;
on any other base name the 1-based positional ordinal is appended exactly
when the base name occurs more than once in the whole filtered list. -/
def specLabelJS (bases : List String) (i : Nat) : String :=
  if objectProtoKey (bases.getD i "") then bases.getD i ""
  else if 1 < bases.count (bases.getD i "") then
    bases.getD i "" ++ " #" ++ toString ((bases.take i).count (bases.getD i "") + 1)
  else bases.getD i ""

/-- Claim C2 (amended): `componentsHistory` keeps exactly the
assistant-authored, non-cancelled messages that carry a rendered component
(in message order, with their ids), and labels position `i` with its
inferred base name, suffixed by the 1-based positional ordinal exactly when
that base name occurs more than once in the filtered list and does not
collide with an own property name of `Object.prototype`; on a colliding
name the ordinal is never applied. -/
theorem componentsHistory_labels (messages : List ThreadMessage) (i : Nat)
    (h : i < (filteredComponents messages).length) :
    ∃ h' : i < (componentsHistory messages).length,
      ((componentsHistory messages).get ⟨i, h'⟩).label =
        specLabelJS ((filteredComponents messages).map (fun c => c.baseName)) i ∧
      ((componentsHistory messages).get ⟨i, h'⟩).messageId =
        ((filteredComponents messages).get ⟨i, h⟩).messageId := by
  have hlen : (componentsHistory messages).length =
      (filteredComponents messages).length := by
    unfold componentsHistory
    rw [numberComponents_length]
  have htc : ∀ k, objectProtoKey k = true →
      readGtOne (counterRead
        (buildCounts ((filteredComponents messages).map (fun c => c.baseName))
          (fun _ => none)) k) = false := by
    intro k hkp
    rcases buildCounts_proto ((filteredComponents messages).map (fun c => c.baseName))
        (fun _ => none) k hkp (Or.inl rfl) with hc | hc
    · simp [counterRead, hc, hkp, readGtOne]
    · simp [counterRead, hc, readGtOne]
  have hg := numberComponents_get
    (buildCounts ((filteredComponents messages).map (fun c => c.baseName)) (fun _ => none))
    (filteredComponents messages) (fun _ => none) (fun _ => 0)
    (fun _ _ => rfl) (fun _ _ => Or.inl rfl) htc i h
    (by rw [numberComponents_length]; exact h)
  refine ⟨by rw [hlen]; exact h, ?_, hg.2⟩
  refine Eq.trans hg.1 ?_
  unfold expectedLabel specLabelJS
  generalize ((filteredComponents messages).map (fun c => c.baseName)).getD i "" = g
  by_cases hkp : objectProtoKey g = true
  · simp [htc g hkp, hkp]
  · have hkf : objectProtoKey g = false := by
      rw [Bool.not_eq_true] at hkp
      exact hkp
    have hclean := buildCounts_clean
      ((filteredComponents messages).map (fun c => c.baseName)) (fun _ => none) g hkf 0 rfl
    rw [Nat.zero_add] at hclean
    cases hts : buildCounts ((filteredComponents messages).map (fun c => c.baseName))
        (fun _ => none) g with
    | none =>
      rw [hts] at hclean
      simp only [jsNumRead, Option.some.injEq] at hclean
      have hcnt := hclean.symm
      simp [counterRead, hts, hkf, readGtOne, hcnt]
    | some v =>
      cases v with
      | num nn =>
        rw [hts] at hclean
        simp only [jsNumRead, Option.some.injEq] at hclean
        rw [← hclean]
        simp [counterRead, hts, readGtOne, hkf]
      | nanStr =>
        rw [hts] at hclean
        simp [jsNumRead] at hclean

/-- A rendered Risk Heatmap element (recognised through its `displayName`). -/
def riskComponent : JSVal :=
  JSVal.elem (RElement.mk (ElemType.fnType (some "RiskHeatmap") "RiskHeatmap") [])

/-- A rendered PR Summary element. -/
def prComponent : JSVal :=
  JSVal.elem (RElement.mk (ElemType.fnType (some "PRSummary") "PRSummary") [])

/-- A thread with three Risk Heatmaps and one PR Summary among assistant
messages, plus a user message without a component. -/
def demoMessages : List ThreadMessage :=
  [{ id := "m1", role := "assistant", renderedComponent := riskComponent, isCancelled := false },
   { id := "m2", role := "assistant", renderedComponent := prComponent, isCancelled := false },
   { id := "m3", role := "user", renderedComponent := JSVal.undefined, isCancelled := false },
   { id := "m4", role := "assistant", renderedComponent := riskComponent, isCancelled := false },
   { id := "m5", role := "assistant", renderedComponent := riskComponent, isCancelled := false }]

/-- Witness for C2: in the demo thread the third filtered component (message
`m4`, the second Risk Heatmap) is labeled `"Risk Heatmap #2"`; the base name
`"Risk Heatmap"` does not collide with `Object.prototype`, so the ordinal is
applied. -/
theorem componentsHistory_labels_witness :
    ∃ h' : 2 < (componentsHistory demoMessages).length,
      ((componentsHistory demoMessages).get ⟨2, h'⟩).label = "Risk Heatmap #2" := by
  obtain ⟨h', hl, _⟩ := componentsHistory_labels demoMessages 2 (by decide)
  exact ⟨h', hl.trans (by decide)⟩

/-- A rendered element whose function is named `toString`: every inference
strategy misses, so the recovered type name `"toString"` becomes the base
name — an own property name of `Object.prototype`. -/
def toStringComponent : JSVal :=
  JSVal.elem (RElement.mk (ElemType.fnType (some "toString") "toString") [])

/-- A thread whose three assistant messages all render a `toString`
component. -/
def demoProtoMessages : List ThreadMessage :=
  [{ id := "p1", role := "assistant", renderedComponent := toStringComponent,
     isCancelled := false },
   { id := "p2", role := "assistant", renderedComponent := toStringComponent,
     isCancelled := false },
   { id := "p3", role := "assistant", renderedComponent := toStringComponent,
     isCancelled := false }]

/-- Counterexample for C2 as originally claimed: `"toString"` occurs three
times among the filtered base names, yet the second occurrence keeps the bare
label `"toString"` rather than `"toString #2"` — the bare `{}`
counters hit the inherited `Object.prototype.toString`, `(x || 0) + 1`
corrupts both counts to non-numeric strings, and `totalOfType > 1` is false
on `NaN`, so no ordinal is ever applied. -/
theorem componentsHistory_proto_label :
    ((filteredComponents demoProtoMessages).map (fun c => c.baseName)).count
        "toString" = 3 ∧
    ∃ h' : 1 < (componentsHistory demoProtoMessages).length,
      ((componentsHistory demoProtoMessages).get ⟨1, h'⟩).label = "toString" ∧
      ((componentsHistory demoProtoMessages).get ⟨1, h'⟩).label ≠ "toString #2" := by
  refine ⟨by decide, ⟨by decide, by decide, by decide⟩⟩


/-! ## C7 — the inference fallback label -/

/-- No inference strategy yields a known match: the known-name lookup fails
on the recovered type name of the element itself, the same lookup fails on its sole
child, the five shape checks all fail, and keyword matching fails.
Non-elements trivially match no strategy. -/
def noKnownMatch (component : JSVal) : Prop :=
  match component with
  | .elem e =>
    lookupDisplayName (typeNameOfElemType e.etype) = none ∧
    childDisplayName e.props = none ∧
    propsShapeName e.props = none ∧
    keywordName (typeNameOfElemType e.etype) = none
  | _ => True

/-- A function component named `Gadget`: no strategy recognises it. -/
def gadgetComponent : JSVal :=
  JSVal.elem (RElement.mk (ElemType.fnType none "Gadget") [])

/-- Counterexample to claim C7: the `Gadget` element matches no inference
strategy, yet its label is `"Gadget"`, not `"Component"` — the final
fallback is `return typeName || "Component"`, which only yields
`"Component"` when the recovered type name is empty. -/
theorem getComponentDisplayName_not_component :
    noKnownMatch gadgetComponent ∧
    getComponentDisplayName gadgetComponent = "Gadget" ∧
    getComponentDisplayName gadgetComponent ≠ "Component" := by
  refine ⟨⟨?_, ?_, ?_, ?_⟩, ?_, ?_⟩ <;> decide

/-- Amended claim C7: on a component matching no inference strategy, the
label is the recovered type name when that is non-empty, and exactly
`"Component"` otherwise (in particular for non-elements and for elements
whose recovered type name is empty). -/
theorem getComponentDisplayName_fallback (component : JSVal) (h : noKnownMatch component) :
    getComponentDisplayName component =
      (match component with
       | .elem e =>
         if typeNameOfElemType e.etype = "" then "Component" else typeNameOfElemType e.etype
       | _ => "Component") := by
  cases component with
  | elem e =>
    have h' : lookupDisplayName (typeNameOfElemType e.etype) = none ∧
        childDisplayName e.props = none ∧
        propsShapeName e.props = none ∧
        keywordName (typeNameOfElemType e.etype) = none := h
    simp [getComponentDisplayName, h'.1, h'.2.1, h'.2.2.1, h'.2.2.2]
  | undefined => rfl
  | null => rfl
  | bool b => rfl
  | num n => rfl
  | str s => rfl
  | arr elems => rfl
  | obj fields => rfl

/-- Witness for the amended C7 at the `Gadget` element. -/
theorem getComponentDisplayName_fallback_witness :
    getComponentDisplayName gadgetComponent = "Gadget" :=
  (getComponentDisplayName_fallback gadgetComponent
      ⟨by decide, by decide, by decide, by decide⟩).trans (by decide)

/-! ## C10 — trim invariance of the URL parser -/

/-- Dropping the leading whitespace of an already left-trimmed and
right-trimmed list changes nothing: the right trim keeps a prefix, so the
head is still the head the left trim stopped at. -/
theorem dropWhile_rdropWhile_dropWhile (p : Char → Bool) (l : List Char) :
    (List.rdropWhile p (l.dropWhile p)).dropWhile p =
      List.rdropWhile p (l.dropWhile p) := by
  rw [List.dropWhile_eq_self_iff]
  intro hl
  have hpre := List.rdropWhile_prefix p (l.dropWhile p)
  have hlenA : 0 < (l.dropWhile p).length :=
    Nat.lt_of_lt_of_le hl ( List.IsPrefix.length_le hpre)
  have hget : (List.rdropWhile p (l.dropWhile p)).get ⟨0, hl⟩ =
      (l.dropWhile p).get ⟨0, hlenA⟩ := by
    simp only [List.get_eq_getElem]
    exact List.IsPrefix.getElem hpre hl
  rw [hget]
  exact List.dropWhile_get_zero_not p l hlenA

/-- JavaScript `trim` is idempotent. -/
theorem jsTrim_idem (s : String) : jsTrim (jsTrim s) = jsTrim s := by
  have key : List.rdropWhile isJsWhitespace
      ((List.rdropWhile isJsWhitespace (s.data.dropWhile isJsWhitespace)).dropWhile
        isJsWhitespace) =
      List.rdropWhile isJsWhitespace (s.data.dropWhile isJsWhitespace) := by
    rw [dropWhile_rdropWhile_dropWhile, List.rdropWhile_idempotent]
  exact congrArg String.mk key

/-- A string all of whose characters are non-whitespace trims to itself. -/
theorem jsTrim_eq_self {s : String} (h : ∀ c ∈ s.data, isJsWhitespace c = false) :
    jsTrim s = s := by
  have h1 : s.data.dropWhile isJsWhitespace = s.data := by
    rw [List.dropWhile_eq_self_iff]
    intro hl
    simpa using h (s.data.get ⟨0, hl⟩) (List.get_mem s.data 0 hl)
  have h2 : s.data.reverse.dropWhile isJsWhitespace = s.data.reverse := by
    rw [List.dropWhile_eq_self_iff]
    intro hl
    have hmem : s.data.reverse.get ⟨0, hl⟩ ∈ s.data := by
      rw [← List.mem_reverse]
      exact List.get_mem s.data.reverse 0 hl
    simpa using h _ hmem
  show String.mk (((s.data.dropWhile isJsWhitespace).reverse.dropWhile
      isJsWhitespace).reverse) = s
  rw [h1, h2, List.reverse_reverse]

/-- On the empty input the three regexes all fail. -/
theorem parseGitHubUrlCore_empty : parseGitHubUrlCore "" = none := by decide

/-- Claim C10: `parseGitHubUrl` is invariant under surrounding whitespace
(it trims its input, and trimming is idempotent); the empty string is
rejected by the `!input` guard, and any non-string value is rejected by the
`typeof` guard. -/
theorem parseGitHubUrl_trim_invariant :
    (∀ s, parseGitHubUrl s = parseGitHubUrl (jsTrim s)) ∧
    parseGitHubUrl "" = none ∧
    (∀ v : JSVal, (∀ s, v ≠ JSVal.str s) → parseGitHubUrlJS v = none) := by
  refine ⟨?_, rfl, ?_⟩
  · intro s
    by_cases h0 : s = ""
    · subst h0; rfl
    · by_cases ht : jsTrim s = ""
      · unfold parseGitHubUrl
        rw [if_neg h0, if_pos ht, ht]
        exact parseGitHubUrlCore_empty
      · unfold parseGitHubUrl
        rw [if_neg h0, if_neg ht, jsTrim_idem]
  · intro v hv
    cases v with
    | str s => exact absurd rfl (hv s)
    | undefined => rfl
    | null => rfl
    | bool b => simp [parseGitHubUrlJS, isStringVal]
    | num n => simp [parseGitHubUrlJS, isStringVal]
    | arr elems => simp [parseGitHubUrlJS, isStringVal]
    | obj fields => simp [parseGitHubUrlJS, isStringVal]
    | elem e => simp [parseGitHubUrlJS, isStringVal]

/-- Witness for C10: whitespace-wrapped input parses like its trim, and a
number is rejected. -/
theorem parseGitHubUrl_trim_invariant_witness :
    parseGitHubUrl "  octocat/Hello-World " =
      parseGitHubUrl (jsTrim "  octocat/Hello-World ") ∧
    parseGitHubUrlJS (JSVal.num 42) = none :=
  ⟨parseGitHubUrl_trim_invariant.1 "  octocat/Hello-World ",
   parseGitHubUrl_trim_invariant.2.2 (JSVal.num 42) (fun _ h => JSVal.noConfusion h)⟩

/-! ## C1 — the URL parser

The priority clauses follow from the definition; the shorthand round-trip
needs symbolic runs of the matcher: literal lemmas, greedy-repetition
lemmas, and failure of the SSH/HTTPS patterns on `owner ++ "/" ++ repo`. -/

theorem mmatch_seq (a b : Re) (s : List Char) (caps : Caps)
    (k : List Char → Caps → Option Caps) :
    mmatch (Re.seq a b) s caps k =
      mmatch a s caps (fun s' caps' => mmatch b s' caps' k) := rfl

theorem mmatch_alt (a b : Re) (s : List Char) (caps : Caps)
    (k : List Char → Caps → Option Caps) :
    mmatch (Re.alt a b) s caps k =
      (match mmatch a s caps k with
       | some r => some r
       | none => mmatch b s caps k) := rfl

theorem mmatch_eps (s : List Char) (caps : Caps) (k : List Char → Caps → Option Caps) :
    mmatch Re.eps s caps k = k s caps := rfl

theorem mmatch_group (n : Nat) (r : Re) (s : List Char) (caps : Caps)
    (k : List Char → Caps → Option Caps) :
    mmatch (Re.group n r) s caps k =
      mmatch r s caps (fun s' caps' => k s' ((n, s.take (s.length - s'.length)) :: caps')) := rfl

/-- A chain of literals consumes exactly its word: it succeeds iff the word
is a prefix, continuing on the rest. -/
theorem mmatch_foldr_lit (w s : List Char) (caps : Caps)
    (k : List Char → Caps → Option Caps) :
    mmatch (w.foldr (fun c acc => Re.seq (Re.lit c) acc) Re.eps) s caps k =
      if w <+: s then k (s.drop w.length) caps else none := by
  induction w generalizing s with
  | nil => simp [mmatch]
  | cons c w' ih =>
    cases s with
    | nil =>
      simp only [List.foldr_cons, mmatch]
      rw [if_neg]
      intro hp
      exact List.noConfusion (List.prefix_nil.mp hp)
    | cons x s' =>
      simp only [List.foldr_cons, mmatch]
      by_cases hx : x = c
      · subst hx
        rw [ih]
        by_cases hw : w' <+: s'
        · rw [if_pos rfl, if_pos hw, if_pos ( List.cons_prefix_cons.mpr ⟨rfl, hw⟩)]
          rfl
        · rw [if_pos rfl, if_neg hw, if_neg]
          intro hp
          exact hw ( List.cons_prefix_cons.mp hp).2
      · rw [if_neg hx, if_neg]
        intro hp
        exact hx ( List.cons_prefix_cons.mp hp).1.symm

/-- The `strLit` in terms of the foldr lemma. -/
theorem mmatch_strLit (w : String) (s : List Char) (caps : Caps)
    (k : List Char → Caps → Option Caps) :
    mmatch (strLit w) s caps k =
      if w.data <+: s then k (s.drop w.data.length) caps else none :=
  mmatch_foldr_lit w.data s caps k

/-- A literal fails whenever one of its characters cannot occur in the
input. -/
theorem mmatch_strLit_none (w : String) (s : List Char) (caps : Caps)
    (k : List Char → Caps → Option Caps) (c : Char) (hcw : c ∈ w.data) (hcs : c ∉ s) :
    mmatch (strLit w) s caps k = none := by
  rw [mmatch_strLit, if_neg]
  intro hp
  exact hcs ( List.IsPrefix.subset hp hcw)

/-- The most a class repetition can eat from `xs ++ rest` is `xs`, when all
of `xs` satisfies the class and the head of `rest` does not. -/
theorem maxMunch_append (p : Char → Bool) (xs rest : List Char)
    (hxs : ∀ c ∈ xs, p c = true) (hrest : ∀ c, rest.head? = some c → p c = false) :
    maxMunch p (xs ++ rest) = xs.length := by
  induction xs with
  | nil =>
    cases rest with
    | nil => rfl
    | cons c r =>
      show (if p c then maxMunch p r + 1 else 0) = 0
      rw [hrest c rfl]
      rfl
  | cons x xs' ih =>
    show (if p x then maxMunch p (xs' ++ rest) + 1 else 0) = xs'.length + 1
    rw [hxs x (List.mem_cons_self x xs'), ih (fun c hc => hxs c (List.mem_cons_of_mem x hc))]
    rfl

/-- Greedy repetition succeeds at once when the continuation accepts the
maximal munch. -/
theorem starGreedyAux_max (s : List Char) (caps : Caps)
    (k : List Char → Caps → Option Caps) (v : Caps) (n : Nat)
    (hk : k (s.drop n) caps = some v) : starGreedyAux s caps k n = some v := by
  cases n with
  | zero => simpa using hk
  | succ m =>
    show (match k (s.drop (m + 1)) caps with
          | some r => some r
          | none => starGreedyAux s caps k m) = some v
    rw [hk]

/-- Greedy class repetition on `xs ++ rest` consumes `xs` when the
continuation accepts `rest`. -/
theorem mmatch_starG (p : Char → Bool) (xs rest : List Char) (caps : Caps)
    (k : List Char → Caps → Option Caps) (v : Caps)
    (hxs : ∀ c ∈ xs, p c = true) (hrest : ∀ c, rest.head? = some c → p c = false)
    (hk : k rest caps = some v) :
    mmatch (Re.starG p) (xs ++ rest) caps k = some v := by
  show starGreedyAux (xs ++ rest) caps k (maxMunch p (xs ++ rest)) = some v
  rw [maxMunch_append p xs rest hxs hrest]
  apply starGreedyAux_max
  rw [List.drop_left]
  exact hk

/-- Greedy `[p]+` on `xs ++ rest` (`xs` non-empty, all in the class, head of
`rest` outside it) consumes `xs` and continues on `rest`. -/
theorem mmatch_plusG (p : Char → Bool) (xs rest : List Char) (caps : Caps)
    (k : List Char → Caps → Option Caps) (v : Caps)
    (hne : xs ≠ []) (hxs : ∀ c ∈ xs, p c = true)
    (hrest : ∀ c, rest.head? = some c → p c = false)
    (hk : k rest caps = some v) :
    mmatch (plusG p) (xs ++ rest) caps k = some v := by
  cases xs with
  | nil => exact absurd rfl hne
  | cons x xs' =>
    show (if p x then mmatch (Re.starG p) (xs' ++ rest) caps k else none) = some v
    rw [hxs x (List.mem_cons_self x xs')]
    simp only [if_true]
    exact mmatch_starG p xs' rest caps k v
      (fun c hc => hxs c (List.mem_cons_of_mem x hc)) hrest hk

/-- Character order coincides with code-point order. -/
theorem charLe_toNat {a b : Char} : a ≤ b ↔ a.toNat ≤ b.toNat := by
  rw [Char.le_def, UInt32.le_def, BitVec.le_def]
  exact Iff.rfl

/-- Owner characters are also repo characters. -/
theorem ghOwnerChar_to_repo (c : Char) (h : ghOwnerChar c = true) : ghRepoChar c = true := by
  simp [ghRepoChar, h]

/-- Repo characters live in the printable band `45..122`. -/
theorem ghRepoChar_bounds (c : Char) (h : ghRepoChar c = true) :
    45 ≤ c.toNat ∧ c.toNat ≤ 122 := by
  simp only [ghRepoChar, ghOwnerChar, Bool.or_eq_true, Bool.and_eq_true,
    decide_eq_true_eq, beq_iff_eq] at h
  have ea : ('a').toNat = 97 := rfl
  have ez : ('z').toNat = 122 := rfl
  have eA : ('A').toNat = 65 := rfl
  have eZ : ('Z').toNat = 90 := rfl
  have e0 : ('0').toNat = 48 := rfl
  have e9 : ('9').toNat = 57 := rfl
  rcases h with ((((⟨ha, hb⟩ | ⟨ha, hb⟩) | ⟨ha, hb⟩) | h) | h) | h
  · have ha' := charLe_toNat.mp ha
    have hb' := charLe_toNat.mp hb
    omega
  · have ha' := charLe_toNat.mp ha
    have hb' := charLe_toNat.mp hb
    omega
  · have ha' := charLe_toNat.mp ha
    have hb' := charLe_toNat.mp hb
    omega
  · subst h; exact ⟨by decide, by decide⟩
  · subst h; exact ⟨by decide, by decide⟩
  · subst h; exact ⟨by decide, by decide⟩

/-- Whitespace code points sit at or below 32, or at or above 160. -/
theorem isJsWhitespace_bounds (c : Char) (h : isJsWhitespace c = true) :
    c.toNat ≤ 32 ∨ 160 ≤ c.toNat := by
  simp only [isJsWhitespace, Bool.or_eq_true, Bool.and_eq_true, beq_iff_eq,
    decide_eq_true_eq] at h
  omega

/-- Repo characters are never JavaScript whitespace. -/
theorem ghRepoChar_not_ws (c : Char) (h : ghRepoChar c = true) : isJsWhitespace c = false := by
  by_contra hws
  simp only [Bool.not_eq_false] at hws
  have h1 := ghRepoChar_bounds c h
  have h2 := isJsWhitespace_bounds c hws
  omega

/-- A character outside the shorthand classes (and distinct from the slash)
does not occur in `owner ++ '/' :: repo`. -/
theorem not_mem_shorthand (o r : List Char)
    (ho : ∀ c ∈ o, ghOwnerChar c = true) (hr : ∀ c ∈ r, ghRepoChar c = true)
    (c : Char) (hc1 : ghRepoChar c = false) (hc2 : c ≠ '/') : c ∉ o ++ '/' :: r := by
  intro hmem
  rcases List.mem_append.mp hmem with hc | hc
  · have := ghOwnerChar_to_repo c (ho c hc)
    rw [hc1] at this
    cases this
  · rcases List.mem_cons.mp hc with hc | hc
    · exact hc2 hc
    · rw [hr c hc] at hc1
      cases hc1

/-- The SSH pattern fails on every shorthand-shaped input: its literal
requires a colon, which the owner/repo alphabets exclude. -/
theorem mmatch_ssh_none (o r : List Char)
    (ho : ∀ c ∈ o, ghOwnerChar c = true) (hr : ∀ c ∈ r, ghRepoChar c = true)
    (caps : Caps) (k : List Char → Caps → Option Caps) :
    mmatch sshRe (o ++ '/' :: r) caps k = none := by
  unfold sshRe
  rw [mmatch_seq]
  exact mmatch_strLit_none "git@github.com:" _ _ _ ':' (by decide)
    (not_mem_shorthand o r ho hr ':' (by decide) (by decide))

/-- The `"github.com/"` is never a prefix of `owner ++ '/' :: repo`: the dot
would have to come from the owner (excluded by its alphabet) or the slash
of `"github.com/"` would have to land before its dot. -/
theorem github_prefix_false (o r : List Char)
    (ho : ∀ c ∈ o, ghOwnerChar c = true)
    (hpre : "github.com/".data <+: o ++ '/' :: r) : False := by
  rcases List.prefix_or_prefix_of_prefix hpre (List.prefix_append o ('/' :: r)) with hgo | hog
  · have hdot : '.' ∈ o := List.IsPrefix.subset hgo (by decide)
    exact absurd (ho '.' hdot) (by decide)
  · obtain ⟨g2, hg2⟩ := hog
    rw [← hg2] at hpre
    have hg2pre : g2 <+: '/' :: r := (List.prefix_append_right_inj o).mp hpre
    cases g2 with
    | nil =>
      rw [List.append_nil] at hg2
      have hdot : '.' ∈ o := by rw [hg2]; decide
      exact absurd (ho '.' hdot) (by decide)
    | cons x g2' =>
      have hx : x = '/' := ( List.cons_prefix_cons.mp hg2pre).1
      subst hx
      have hlen : o.length ≤ 10 := by
        have hle := congrArg List.length hg2
        have hglen : ("github.com/".data).length = 11 := rfl
        rw [hglen] at hle
        simp only [List.length_append, List.length_cons] at hle
        omega
      have htake : o = List.take o.length ("github.com/".data) :=
        List.prefix_iff_eq_take.mp ⟨'/' :: g2', hg2⟩
      have hdot : '.' ∉ List.take o.length ("github.com/".data) := by
        rw [← htake]
        intro hmem
        exact absurd (ho '.' hmem) (by decide)
      have hslash : ("github.com/".data).getD o.length ' ' = '/' := by
        rw [← hg2]
        clear hg2 hpre hg2pre hlen htake hdot
        induction o with
        | nil => rfl
        | cons a t ih => simpa using ih (fun c hc => ho c (List.mem_cons_of_mem a hc))
      have hdec : ∀ n, n ≤ 10 → '.' ∈ List.take n ("github.com/".data) ∨
          ("github.com/".data).getD n ' ' ≠ '/' := by decide
      rcases hdec o.length hlen with hcontra | hcontra
      · exact hdot hcontra
      · exact hcontra hslash

/-- When the preferred alternative fails, the matcher falls through to the
second one. -/
theorem mmatch_alt_none {a b : Re} {s : List Char} {caps : Caps}
    {k : List Char → Caps → Option Caps} (h : mmatch a s caps k = none) :
    mmatch (Re.alt a b) s caps k = mmatch b s caps k := by
  simp only [mmatch]
  rw [h]

/-- The HTTPS pattern fails on every shorthand-shaped input: the scheme
needs a colon and the host literal cannot be a prefix. -/
theorem mmatch_https_none (o r : List Char)
    (ho : ∀ c ∈ o, ghOwnerChar c = true) (hr : ∀ c ∈ r, ghRepoChar c = true)
    (caps : Caps) (k : List Char → Caps → Option Caps) :
    mmatch httpsRe (o ++ '/' :: r) caps k = none := by
  have hcolon : ∀ (t : List Char), t ⊆ o ++ '/' :: r → ∀ (caps' : Caps)
      (k' : List Char → Caps → Option Caps), mmatch (strLit "://") t caps' k' = none := by
    intro t ht caps' k'
    apply mmatch_strLit_none _ _ _ _ ':' (by decide)
    intro hmem
    exact not_mem_shorthand o r ho hr ':' (by decide) (by decide) (ht hmem)
  have hscheme : ∀ (caps' : Caps) (k' : List Char → Caps → Option Caps),
      mmatch (Re.seq (strLit "http") (Re.seq (Re.alt (Re.lit 's') Re.eps) (strLit "://")))
        (o ++ '/' :: r) caps' k' = none := by
    intro caps' k'
    rw [mmatch_seq, mmatch_strLit]
    by_cases hp : "http".data <+: o ++ '/' :: r
    · rw [if_pos hp]
      rw [mmatch_seq]
      have hlit : mmatch (Re.lit 's') ((o ++ '/' :: r).drop ("http".data.length)) caps'
          (fun s' c' => mmatch (strLit "://") s' c' k') = none := by
        cases hm : (o ++ '/' :: r).drop ("http".data.length) with
        | nil => rfl
        | cons y m' =>
          show (if y = 's' then mmatch (strLit "://") m' caps' k' else none) = none
          by_cases hy : y = 's'
          · rw [if_pos hy]
            apply hcolon m'
            intro c hc
            have hcd : c ∈ (o ++ '/' :: r).drop ("http".data.length) := by
              rw [hm]; exact List.mem_cons_of_mem y hc
            exact List.drop_subset _ _ hcd
          · rw [if_neg hy]
      rw [mmatch_alt_none hlit, mmatch_eps]
      exact hcolon _ (List.drop_subset _ _) caps' k'
    · rw [if_neg hp]
  have hrest2 : ∀ (b : Re),
      mmatch (Re.seq (strLit "github.com/") b) (o ++ '/' :: r) caps k = none := by
    intro b
    rw [mmatch_seq, mmatch_strLit, if_neg]
    intro hpre
    exact github_prefix_false o r ho hpre
  unfold httpsRe
  rw [mmatch_seq]
  unfold optG
  rw [mmatch_alt_none (hscheme caps _), mmatch_eps]
  exact hrest2 _

/-- The `plusG` consuming its whole input. -/
theorem mmatch_plusG_nil (p : Char → Bool) (xs : List Char) (caps : Caps)
    (k : List Char → Caps → Option Caps) (v : Caps)
    (hne : xs ≠ []) (hxs : ∀ c ∈ xs, p c = true) (hk : k [] caps = some v) :
    mmatch (plusG p) xs caps k = some v := by
  have := mmatch_plusG p xs [] caps k v hne hxs (fun c hc => Option.noConfusion hc) hk
  rwa [List.append_nil] at this

/-- Running the shorthand pattern on `owner ++ '/' :: repo` captures exactly
the owner (group 1) and the repo (group 2). -/
theorem runRe_shorthand (o r : List Char) (ho_ne : o ≠ [])
    (ho : ∀ c ∈ o, ghOwnerChar c = true) (hr_ne : r ≠ [])
    (hr : ∀ c ∈ r, ghRepoChar c = true) :
    mmatch shorthandRe (o ++ '/' :: r) []
      (fun rest caps => if rest = [] then some caps else none) = some [(2, r), (1, o)] := by
  have htake : List.take ((o ++ '/' :: r).length - ('/' :: r).length) (o ++ '/' :: r) = o := by
    rw [List.length_append, Nat.add_sub_cancel]
    exact List.take_left o ('/' :: r)
  have hk2 : ∀ caps2 : Caps,
      mmatch (Re.seq (Re.lit '/') (Re.group 2 (plusG ghRepoChar))) ('/' :: r) caps2
        (fun rest caps => if rest = [] then some caps else none) = some ((2, r) :: caps2) := by
    intro caps2
    rw [mmatch_seq]
    show (if '/' = '/' then
        mmatch (Re.group 2 (plusG ghRepoChar)) r caps2
          (fun rest caps => if rest = [] then some caps else none)
      else none) = some ((2, r) :: caps2)
    rw [if_pos rfl, mmatch_group]
    apply mmatch_plusG_nil ghRepoChar r caps2 _ _ hr_ne hr
    show (if ([] : List Char) = [] then
        some ((2, List.take (r.length - ([] : List Char).length) r) :: caps2) else none) =
      some ((2, r) :: caps2)
    rw [if_pos rfl]
    have hrt : List.take (r.length - ([] : List Char).length) r = r := by simp
    rw [hrt]
  unfold shorthandRe
  rw [mmatch_seq, mmatch_group]
  apply mmatch_plusG ghOwnerChar o ('/' :: r) _ _ _ ho_ne ho
  · intro c hc
    have hcs : c = '/' := by injection hc with h; exact h.symm
    subst hcs
    decide
  · show mmatch (Re.seq (Re.lit '/') (Re.group 2 (plusG ghRepoChar))) ('/' :: r)
        [(1, List.take ((o ++ '/' :: r).length - ('/' :: r).length) (o ++ '/' :: r))]
        (fun rest caps => if rest = [] then some caps else none) = some [(2, r), (1, o)]
    rw [htake]
    exact hk2 [(1, o)]

/-- Claim C1: `parseGitHubUrl` tries the SSH, HTTPS and shorthand forms in
that order — a match of an earlier form decides the result, and when no
form matches the result is `null` — and returns the fields encoded in the
input: the three spec examples evaluate as stated, and every shorthand
input `owner ++ "/" ++ repo` over the shorthand alphabets parses to exactly
that owner and repo with no branch. -/
theorem parseGitHubUrl_spec :
    parseGitHubUrl "https://github.com/facebook/react/tree/main" =
      some { owner := "facebook", repo := "react", branch := some "main" } ∧
    parseGitHubUrl "octocat/Hello-World" =
      some { owner := "octocat", repo := "Hello-World", branch := none } ∧
    parseGitHubUrl "not a repo" = none ∧
    (∀ s caps, s ≠ "" → runRe sshRe (jsTrim s) = some caps →
      parseGitHubUrl s = some (sshResult caps)) ∧
    (∀ s caps, s ≠ "" → runRe sshRe (jsTrim s) = none →
      runRe httpsRe (jsTrim s) = some caps →
      parseGitHubUrl s = some (httpsResult caps)) ∧
    (∀ s caps, s ≠ "" → runRe sshRe (jsTrim s) = none →
      runRe httpsRe (jsTrim s) = none → runRe shorthandRe (jsTrim s) = some caps →
      parseGitHubUrl s = some (shorthandResult caps)) ∧
    (∀ s, runRe sshRe (jsTrim s) = none → runRe httpsRe (jsTrim s) = none →
      runRe shorthandRe (jsTrim s) = none → parseGitHubUrl s = none) ∧
    (∀ owner repo : String, owner.data ≠ [] → (∀ c ∈ owner.data, ghOwnerChar c = true) →
      repo.data ≠ [] → (∀ c ∈ repo.data, ghRepoChar c = true) →
      parseGitHubUrl (owner ++ "/" ++ repo) =
        some { owner := owner, repo := repo, branch := none }) := by
  refine ⟨by decide, by decide, by decide, ?_, ?_, ?_, ?_, ?_⟩
  · intro s caps hs hssh
    unfold parseGitHubUrl
    rw [if_neg hs]
    unfold parseGitHubUrlCore
    rw [hssh]
  · intro s caps hs hssh hhttps
    unfold parseGitHubUrl
    rw [if_neg hs]
    unfold parseGitHubUrlCore
    rw [hssh, hhttps]
  · intro s caps hs hssh hhttps hshort
    unfold parseGitHubUrl
    rw [if_neg hs]
    unfold parseGitHubUrlCore
    rw [hssh, hhttps, hshort]
  · intro s hssh hhttps hshort
    by_cases h0 : s = ""
    · subst h0; rfl
    · unfold parseGitHubUrl
      rw [if_neg h0]
      unfold parseGitHubUrlCore
      rw [hssh, hhttps, hshort]
  · intro owner repo h1 h2 h3 h4
    have hdata : (owner ++ "/" ++ repo).data = owner.data ++ '/' :: repo.data := by
      simp [String.data_append]
    have hne : (owner ++ "/" ++ repo) ≠ "" := by
      intro h
      have hd := congrArg String.data h
      rw [hdata] at hd
      simp at hd
    have hws : ∀ c ∈ (owner ++ "/" ++ repo).data, isJsWhitespace c = false := by
      intro c hc
      rw [hdata] at hc
      rcases List.mem_append.mp hc with hc | hc
      · exact ghRepoChar_not_ws c (ghOwnerChar_to_repo c (h2 c hc))
      · rcases List.mem_cons.mp hc with hc | hc
        · subst hc; decide
        · exact ghRepoChar_not_ws c (h4 c hc)
    have htrim := jsTrim_eq_self hws
    have hssh : runRe sshRe (owner ++ "/" ++ repo) = none := by
      unfold runRe
      rw [hdata]
      exact mmatch_ssh_none owner.data repo.data h2 h4 [] _
    have hhttps : runRe httpsRe (owner ++ "/" ++ repo) = none := by
      unfold runRe
      rw [hdata]
      exact mmatch_https_none owner.data repo.data h2 h4 [] _
    have hshort : runRe shorthandRe (owner ++ "/" ++ repo) =
        some [(2, repo.data), (1, owner.data)] := by
      unfold runRe
      rw [hdata]
      exact runRe_shorthand owner.data repo.data h1 h2 h3 h4
    unfold parseGitHubUrl
    rw [if_neg hne, htrim]
    unfold parseGitHubUrlCore
    rw [hssh, hhttps, hshort]
    rfl

/-- Witness for C1: the shorthand round-trip at a concrete owner/repo whose
repo name carries a dot. -/
theorem parseGitHubUrl_spec_witness :
    parseGitHubUrl ("rust-lang" ++ "/" ++ "rust.vim") =
      some { owner := "rust-lang", repo := "rust.vim", branch := none } :=
  parseGitHubUrl_spec.2.2.2.2.2.2.2 "rust-lang" "rust.vim"
    (by decide) (by decide) (by decide) (by decide)
